import Mathlib

/-!
Verification of the tk-unreal pipeline-integration layer.

This file gives a shallow embedding, in Lean, of the core algorithms of the
repository:

* the name/path parsers of `libs/unreal_utils.py`
  (`ctx_from_asset_path`, `ctx_from_shot_path`, `ctx_from_movie_path`,
  `ctx_from_sequence`, `ctx_from_level`, and the commented-out version-suffix
  helpers `get_version` / `set_version` / `up_version`);
* the context resolvers `create_asset_context` / `create_shot_context`,
  with the Shotgun production database modelled as lists of rows and
  `find_one` as a first-match search;
* the staleness check of
  `hooks/tk-multi-publish2/basic/publish_rendered_movie.py` (`accept`);
* the sequence edit-graph traversal
  `UnrealSessionCollector.get_all_paths_from_sequence` of
  `hooks/tk-multi-publish2/basic/collector.py`, in three views: an
  exception-faithful function (the cycle branch raises, as the source
  does), a cycle-skipping value-level function proven to agree with it on
  every normally-returning run (and used for termination and the
  cycle-free claims), and a store-passing function (for the Python
  list-aliasing effects);
* the context-resolution fragment of
  `UnrealSessionCollector.create_rendered_movie_item`.

Python code that can raise an exception is embedded with `Except String`
(the error string names the Python exception class); code that returns
`None` on failure is embedded with `Option`.
-/

/-! ## Python string primitives

All primitives are implemented by structural recursion over `List Char`
so that concrete runs reduce inside the kernel. -/

/-- If `sep` is a prefix of `l`, return the remainder of `l`. -/
def dropSep : List Char → List Char → Option (List Char)
  | [], l => some l
  | _ :: _, [] => none
  | s :: ss, c :: cs => if c = s then dropSep ss cs else none

/-- Split a character list on a non-empty separator, fuelled by the input
length (each step consumes at least one character, so the fuel is never
exhausted on a non-empty remainder). -/
def pySplitL (sep : List Char) : Nat → List Char → List (List Char)
  | 0, l => [l]
  | _ + 1, [] => [[]]
  | fuel + 1, c :: cs =>
    match dropSep sep (c :: cs) with
    | some rest => [] :: pySplitL sep fuel rest
    | none =>
      match pySplitL sep fuel cs with
      | h :: t => (c :: h) :: t
      | [] => [[c]]

/-- Python `str.split(sep)` with an explicit non-empty separator:
`"".split(sep) == ['']`, adjacent separators produce empty fields. -/
def pySplit (s sep : String) : List String :=
  (pySplitL sep.toList s.toList.length s.toList).map String.mk

/-- Split a character list at every character satisfying `p`. -/
def splitPred (p : Char → Bool) : List Char → List (List Char)
  | [] => [[]]
  | c :: cs =>
    if p c then [] :: splitPred p cs
    else
      match splitPred p cs with
      | h :: t => (c :: h) :: t
      | [] => [[c]]

/-- Python `str.split(sep, maxsplit)`: at most `maxsplit` splits are made,
so the result has at most `maxsplit + 1` parts and the last part keeps any
further separators verbatim. -/
def pySplitMax (s sep : String) (maxsplit : Nat) : List String :=
  let ps := pySplit s sep
  if ps.length ≤ maxsplit + 1 then ps
  else ps.take maxsplit ++ [String.intercalate sep (ps.drop maxsplit)]

/-- Python `str.rpartition(sep)`: split at the last occurrence of `sep`,
returning `(head, found, tail)`; when `sep` does not occur the result is
`("", false, s)` (Python returns `('', '', s)`, with the middle component
falsy).  Implemented via `splitOn`: `sep = " v"` (the only separator used by
the source) cannot overlap itself, so the last `splitOn` field is exactly the
text after the last occurrence. -/
def pyRpartition (s sep : String) : String × Bool × String :=
  let parts := pySplit s sep
  if parts.length ≤ 1 then ("", false, s)
  else (String.intercalate sep parts.dropLast, true, parts.getLastD "")

/-- Python `str.rstrip(chars)`: remove trailing characters that belong to the
character *set* `chars` (not the suffix `chars`). -/
def pyRstrip (s : String) (chars : List Char) : String :=
  String.mk ((s.toList.reverse.dropWhile (fun c => chars.contains c)).reverse)

/-- Python `int(s)` for a string argument, as used on version suffixes:
surrounding whitespace is stripped, an optional single sign is allowed,
then decimal digits.  Returns `none` where Python raises `ValueError`.
(Python's digit-group underscores are not modelled; no caller produces
them.) -/
def pyInt (s : String) : Option Int :=
  let t := (s.toList.dropWhile Char.isWhitespace).reverse.dropWhile Char.isWhitespace |>.reverse
  let signDigits : Int × List Char :=
    match t with
    | '-' :: rest => (-1, rest)
    | '+' :: rest => (1, rest)
    | l => (1, l)
  let sign := signDigits.1
  let digits := signDigits.2
  if digits = [] then none
  else if digits.all (fun c => c.isDigit) then
    some (sign * (Int.ofNat (digits.foldl (fun acc c => acc * 10 + (c.toNat - 48)) 0)))
  else none

/-- `os.path.basename`: the part of the path after the last separator.
The tool runs on Windows (`ntpath`), where both `/` and `\` separate
(drive-letter handling is irrelevant to the inputs at hand and not
modelled). -/
def pyBasename (s : String) : String :=
  String.mk ((splitPred (fun c => c == '/' || c == '\\') s.toList).getLastD [])

/-- `os.path.splitext`: split off the extension at the last dot of the
basename, except that leading dots of the basename never start an
extension (`".bashrc"` has no extension). -/
def pySplitext (s : String) : String × String :=
  let b := (pyBasename s).toList
  let lead := (b.takeWhile (fun c => c == '.')).length
  let rest := b.drop lead
  let extLen := (rest.reverse.takeWhile (fun c => c != '.')).length
  if extLen = rest.length then (s, "")
  else
    (String.mk (s.toList.take (s.toList.length - (extLen + 1))),
     String.mk (s.toList.drop (s.toList.length - (extLen + 1))))

/-! ## Name/path parsers (`libs/unreal_utils.py`) -/

/-- `unreal_utils.ctx_from_asset_path` (lines 403-415).

```python
def ctx_from_asset_path(path):
    splitted = path.split('/')
    if splitted[:3] in (['', 'Game', 'Assets'], ['', 'Game', 'assets']):
        if len(splitted) >= 6:
            asset_type, code, step = splitted[3:6]
        elif len(splitted) == 5:
            asset_type, code = splitted[3:5]
            step = 'MDL'
        return asset_type, code, step
    return None
```

When the marker matches but the path has fewer than 5 segments, neither
branch assigns `asset_type`/`code`/`step` and the final `return` raises
`UnboundLocalError`; this is embedded as `Except.error`. -/
def ctx_from_asset_path (path : String) : Except String (Option (String × String × String)) :=
  let splitted := pySplit path "/"
  if splitted.take 3 = ["", "Game", "Assets"] ∨ splitted.take 3 = ["", "Game", "assets"] then
    if 6 ≤ splitted.length then
      match splitted.drop 3 with
      | asset_type :: code :: step :: _ => .ok (some (asset_type, code, step))
      | _ => .error "ValueError"
    else if splitted.length = 5 then
      match splitted.drop 3 with
      | asset_type :: code :: _ => .ok (some (asset_type, code, "MDL"))
      | _ => .error "ValueError"
    else
      .error "UnboundLocalError"
  else
    .ok none

/-- `unreal_utils.ctx_from_shot_path` (lines 418-425): requires the
`/Game/Scenes` (or `/Game/scenes`) marker and at least three further
segments; every other shape returns `None`. -/
def ctx_from_shot_path (path : String) : Option (String × String × String) :=
  let splitted := pySplit path "/"
  if splitted.take 3 = ["", "Game", "Scenes"] ∨ splitted.take 3 = ["", "Game", "scenes"] then
    if 6 ≤ splitted.length then
      match splitted.drop 3 with
      | scn :: shot :: step :: _ => some (scn, shot, step)
      | _ => none
    else none
  else none

/-- `unreal_utils.ctx_from_movie_path` (lines 428-444).

```python
def ctx_from_movie_path(path):
    base, ext = os.path.splitext(path)
    # if ext.lower() not in ('.mov'):
    #     return
    name = os.path.basename(path).split(".")[0]
    splitted = name.split("_", 2)
    if len(splitted) < 2:
        return
    scene = splitted[0]
    shot = "_".join(splitted[:2])
    try:
        task = splitted[2]
        return scene, shot, "LGT", task
    except:
        return scene, shot, "LGT", "Lighting"
```

The extension allow-list check is commented out in the source, so the
computed extension is unused and any extension is accepted.  The result is
a 4-tuple `(scene, shot, "LGT", task)`; the `IndexError` on a missing third
part is caught and replaced by the task default `"Lighting"`. -/
def ctx_from_movie_path (path : String) : Option (String × String × String × String) :=
  let name := (pySplit (pyBasename path) ".").headD ""
  let splitted := pySplitMax name "_" 2
  if splitted.length < 2 then none
  else
    let scene := splitted.headD ""
    let shot := String.intercalate "_" (splitted.take 2)
    match splitted.drop 2 with
    | task :: _ => some (scene, shot, "LGT", task)
    | [] => some (scene, shot, "LGT", "Lighting")

/-- `unreal_utils.ctx_from_sequence` (lines 447-455), on the sequence's
name string (`seq.get_name()`): `rstrip('_sub')` (a character-set strip),
split on `_`, require exactly 3 parts, rejoin the code as `scene_code`. -/
def ctx_from_sequence (seq_name : String) : Option (String × String × String) :=
  let stripped := pyRstrip seq_name ['_', 's', 'u', 'b']
  let l := pySplit stripped "_"
  match l with
  | [scene, code, step] => some (scene, scene ++ "_" ++ code, step)
  | _ => none

/-- `unreal_utils.ctx_from_level` (lines 458-464), on the level's path name:
`path.split('/')[3:6]` unpacked into three names; the `ValueError` raised
when the slice has fewer than 3 elements is caught and turned into `None`. -/
def ctx_from_level (path : String) : Option (String × String × String) :=
  match ((pySplit path "/").drop 3).take 3 with
  | [scene, code, step] => some (scene, code, step)
  | _ => none

/-! ## Version-suffix helpers (`libs/unreal_utils.py`, lines 374-400)

These three functions exist in the source only as a commented-out block;
they are embedded verbatim from that block. -/

/-- `get_version` (commented out, lines 374-381): extract the integer after
the last `" v"`; `0` when there is no `" v"` separator; `None` (embedded as
`none`) when the tail is not a valid integer. -/
def get_version (name : String) : Option Int :=
  let p := pyRpartition name " v"
  if !p.2.1 then some 0
  else pyInt p.2.2

/-- `set_version` (commented out, lines 384-388): replace the text after the
last `" v"` (or append a fresh suffix) with the given integer, formatted
without padding. -/
def set_version (name : String) (ver : Int) : String :=
  let p := pyRpartition name " v"
  if p.2.1 then p.1 ++ " v" ++ toString ver
  else name ++ " v" ++ toString ver

/-- `up_version` (commented out, lines 391-400): extract, add one, rewrite.
`int(ver)` is uncaught here, so a non-numeric tail raises `ValueError`
(embedded as `none`). -/
def up_version (name : String) : Option String :=
  let p := pyRpartition name " v"
  if !p.2.1 then some (name ++ " v" ++ toString ((0 : Int) + 1))
  else (pyInt p.2.2).map (fun v => p.1 ++ " v" ++ toString (v + 1))

/-! ## Sequence edit-graph traversal
(`hooks/tk-multi-publish2/basic/collector.py`, lines 541-630)

Level Sequences are modelled as elements of `Fin n` (opaque identifiers
with decidable equality, finitely many in any Unreal project).  The
`sequence_edits` dictionary is a `defaultdict(list)`, so it is modelled as
a total function into lists of edits (a missing key reads as `[]`). -/

/-- `SequenceEdit = namedtuple("SequenceEdit", ["sequence", "track", "section"])`
(collector.py line 22).  `track` and the section are opaque to the
traversal, which only reads `edit.sequence` (the parent sequence). -/
structure SequenceEdit (n : Nat) where
  sequence : Fin n
  track : Nat
  sect : Nat
  deriving DecidableEq

/-- `UnrealSessionCollector.get_all_paths_from_sequence` (lines 569-597),
cycle-skipping value-level embedding.

```python
if not visited:
    visited = []
visited.append(level_sequence)
if not sequence_edits[level_sequence]:
    return [[level_sequence]]
all_paths = []
for edit in sequence_edits[level_sequence]:
    if edit.sequence in visited:
        self.logger.warning(
            "Detected a cycle in edits path %s to %s" % (
                "->".join(visited), edit.sequence))
    else:
        for edit_path in self.get_all_paths_from_sequence(
            edit.sequence, sequence_edits, copy.copy(visited)):
            all_paths.append([level_sequence] + edit_path)
return all_paths
```

Rebinding a falsy `visited` to a fresh `[]` is the identity on values, so
at the value level the visited stack entering the loop is
`visited ++ [node]`.  This function models the loop's *branch structure*:
a cyclic edge is skipped and the remaining edges are processed.  In the
source, however, the warning call itself is broken — see
`get_all_paths_from_sequence_src` below, the exception-faithful embedding;
`get_all_paths_src_agrees` proves the two agree on every execution that
returns normally, i.e. whenever no cycle edge is ever detected.  The
function is total on every finite graph, cycles included: the recursion
is guarded by `edit.sequence ∉ visited`, so the set of distinct visited
nodes grows strictly along every branch — this well-foundedness argument
is exactly the termination measure below. -/
def get_all_paths_from_sequence {n : Nat} (adj : Fin n → List (SequenceEdit n))
    (node : Fin n) (visited : List (Fin n)) : List (List (Fin n)) :=
  let v := visited ++ [node]
  if adj node = [] then [[node]]
  else
    (adj node).flatMap (fun e =>
      if _h : e.sequence ∈ v then []
      else (get_all_paths_from_sequence adj e.sequence v).map (fun p => node :: p))
termination_by n + 1 - (insert node visited.toFinset).card
decreasing_by
  simp only [List.toFinset_append, List.toFinset_cons, List.toFinset_nil]
  have hins : (visited.toFinset ∪ insert node ∅) = insert node visited.toFinset := by
    rw [Finset.union_comm]
    simp only [Finset.insert_eq, Finset.union_empty]
  rw [hins]
  have hnotin : e.sequence ∉ insert node visited.toFinset := by
    intro hc
    apply _h
    rcases Finset.mem_insert.mp hc with h1 | h1
    · exact List.mem_append.mpr (Or.inr (by simp [h1]))
    · exact List.mem_append.mpr (Or.inl (List.mem_toFinset.mp h1))
  rw [Finset.card_insert_of_not_mem hnotin]
  have hle : (insert node visited.toFinset).card ≤ n := by
    have := Finset.card_le_univ (insert node visited.toFinset)
    simpa using this
  omega

/-- The per-edge body of the traversal loop, exception-faithful.  The
`recur` argument is the traversal itself applied to the current visited
stack; an `Except.error` from any edge aborts the whole loop, exactly as
an uncaught Python exception unwinds the `for` loop. -/
def walk_edits_src {n : Nat} (node : Fin n)
    (recur : Fin n → Except String (List (List (Fin n)))) :
    List (SequenceEdit n) → List (List (Fin n)) → Except String (List (List (Fin n)))
  | [], all_paths => .ok all_paths
  | e :: es, all_paths =>
    match recur e.sequence with
    | .error err => .error err
    | .ok paths =>
      walk_edits_src node recur es (all_paths ++ paths.map (fun p => node :: p))

/-- `UnrealSessionCollector.get_all_paths_from_sequence` (lines 569-597),
exception-faithful embedding.  When a cycle edge is detected, the source
executes

```python
self.logger.warning(
    "Detected a cycle in edits path %s to %s" % (
        "->".join(visited), edit.sequence
    )
)
```

(lines 582-586) — but `visited` holds `unreal.LevelSequence` *objects*,
not strings (appended at line 571; everywhere else the code calls
`.get_name()` before string operations, e.g. lines 572, 595, 616), so
`"->".join(visited)` raises `TypeError` while building the message,
before `logger.warning` runs and with no handler on the path: the
traversal aborts with no warning logged.  The per-edge function below is
the loop body: edge already on the visited stack — `TypeError`; otherwise
recurse on a copy of the stack and prepend the node to each returned
path. -/
def get_all_paths_from_sequence_src {n : Nat} (adj : Fin n → List (SequenceEdit n))
    (node : Fin n) (visited : List (Fin n)) : Except String (List (List (Fin n))) :=
  let v := visited ++ [node]
  if adj node = [] then .ok [[node]]
  else
    walk_edits_src node
      (fun x =>
        if _h : x ∈ v then .error "TypeError"
        else get_all_paths_from_sequence_src adj x v)
      (adj node) []
termination_by n + 1 - (insert node visited.toFinset).card
decreasing_by
  simp only [List.toFinset_append, List.toFinset_cons, List.toFinset_nil]
  have hins : (visited.toFinset ∪ insert node ∅) = insert node visited.toFinset := by
    rw [Finset.union_comm]
    simp only [Finset.insert_eq, Finset.union_empty]
  rw [hins]
  have hnotin : x ∉ insert node visited.toFinset := by
    intro hc
    apply _h
    rcases Finset.mem_insert.mp hc with h1 | h1
    · exact List.mem_append.mpr (Or.inr (by simp [h1]))
    · exact List.mem_append.mpr (Or.inl (List.mem_toFinset.mp h1))
  rw [Finset.card_insert_of_not_mem hnotin]
  have hle : (insert node visited.toFinset).card ≤ n := by
    have := Finset.card_le_univ (insert node visited.toFinset)
    simpa using this
  omega

/-- The per-path consumption in `UnrealSessionCollector.collect_level_sequence`
(lines 599-630): each path returned by the traversal (started with the
default empty visited stack) is reversed in place (`edits_path.reverse()`)
so it reads master → ... → leaf. -/
def collect_level_sequence_paths {n : Nat} (adj : Fin n → List (SequenceEdit n))
    (node : Fin n) : List (List (Fin n)) :=
  (get_all_paths_from_sequence adj node []).map List.reverse

/-- Edit graph with a cycle, for claim C2: sequence `0`'s parent is `1`,
sequence `1`'s parents are `0` (the cyclic edge `0 -> 1 -> 0`) and the
root `2`. -/
def cycleAdj : Fin 3 → List (SequenceEdit 3) := fun i =>
  if i = 0 then [⟨1, 0, 0⟩]
  else if i = 1 then [⟨0, 1, 1⟩, ⟨2, 2, 2⟩]
  else []

/-- Edit graph for the C4 witness: leaf `0` is used by the two independent
masters `1` and `2`. -/
def forkAdj : Fin 3 → List (SequenceEdit 3) := fun i =>
  if i = 0 then [⟨1, 5, 6⟩, ⟨2, 7, 8⟩]
  else []

/-- Edit graph for the C8 witness: the chain `0 -> 1 -> 2` (leaf `0`, middle
sequence `1`, master `2`). -/
def chainAdj : Fin 3 → List (SequenceEdit 3) := fun i =>
  if i = 0 then [⟨1, 0, 0⟩]
  else if i = 1 then [⟨2, 0, 0⟩]
  else []

/-! ## Production database model and context resolvers
(`libs/unreal_utils.py`, lines 580-643; `engine.shotgun.find_one` is the
external Production Database Gateway)

The Shotgun database is modelled as lists of rows, scoped — as every
`find_one` filter in the source is — to the engine's current project;
`find_one` returns the first matching row (`List.find?`) or `None`. -/

/-- A `Shot` row: its id, its parent sequence code
(`sg_sequence.Sequence.code`) and its own `code`. -/
structure ShotRow where
  id : Nat
  sequence_code : String
  code : String
  deriving DecidableEq

/-- An `Asset` row: its id, its `sg_asset_type` and its `code`. -/
structure AssetRow where
  id : Nat
  sg_asset_type : String
  code : String
  deriving DecidableEq

/-- A `Task` row: its id, the typed entity it belongs to, its free-text
`content` name, and its pipeline step's short name
(`step.Step.short_name`, `none` for a task without a step). -/
structure TaskRow where
  id : Nat
  entity_type : String
  entity_id : Nat
  content : String
  step_short_name : Option String
  deriving DecidableEq

/-- The project-scoped database visible through the gateway. -/
structure SGDb where
  shots : List ShotRow
  assets : List AssetRow
  tasks : List TaskRow
  deriving DecidableEq

/-- The result of `engine.sgtk.context_from_entity("Task", task_id)`:
a context hydrated from the chosen task. -/
structure SGContext where
  entity_type : String
  task_id : Nat
  deriving DecidableEq

/-- Python truthiness of an optional string argument (`if task_name:`):
`None` and the empty string are falsy. -/
def pyTruthy (s : Option String) : Bool :=
  match s with
  | none => false
  | some t => !(t == "")

/-- `unreal_utils.create_shot_context` (lines 613-643).

```python
shot = engine.shotgun.find_one("Shot", [["project", "is", ctx.project],
    ["sg_sequence.Sequence.code", "is", scene], ["code", "is", shot]])
if not shot:
    return
task_data = None
if task_name:
    task_data = engine.shotgun.find_one("Task", [["entity", "is", shot],
        ["content", "is", task_name]], [...])
if not task_data:
    task_data = engine.shotgun.find_one("Task", [["step.Step.short_name", "is", step],
        ["entity", "is", shot]], [...])
if not task_data:
    return
ctx = engine.sgtk.context_from_entity("Task", task_data["id"])
return ctx
``` -/
def create_shot_context (db : SGDb) (scene shot : String)
    (step : Option String) (task_name : Option String) : Option SGContext :=
  match db.shots.find? (fun s => s.sequence_code == scene && s.code == shot) with
  | none => none
  | some sh =>
    let task_data : Option TaskRow :=
      if pyTruthy task_name then
        db.tasks.find? (fun t =>
          t.entity_type == "Shot" && t.entity_id == sh.id && some t.content == task_name)
      else none
    let task_data : Option TaskRow :=
      match task_data with
      | none =>
        db.tasks.find? (fun t =>
          t.step_short_name == step && t.entity_type == "Shot" && t.entity_id == sh.id)
      | some td => some td
    match task_data with
    | none => none
    | some td => some ⟨"Task", td.id⟩

/-- `unreal_utils.create_asset_context` (lines 580-610): identical protocol
against `Asset` rows, with the entity looked up by
`(sg_asset_type, code)`. -/
def create_asset_context (db : SGDb) (asset_type : String) (asset : String)
    (step : Option String) (task_name : Option String) : Option SGContext :=
  match db.assets.find? (fun a => a.sg_asset_type == asset_type && a.code == asset) with
  | none => none
  | some ar =>
    let task_data : Option TaskRow :=
      if pyTruthy task_name then
        db.tasks.find? (fun t =>
          t.entity_type == "Asset" && t.entity_id == ar.id && some t.content == task_name)
      else none
    let task_data : Option TaskRow :=
      match task_data with
      | none =>
        db.tasks.find? (fun t =>
          t.step_short_name == step && t.entity_type == "Asset" && t.entity_id == ar.id)
      | some td => some td
    match task_data with
    | none => none
    | some td => some ⟨"Task", td.id⟩

/-! ## Version resolver: staleness check
(`hooks/tk-multi-publish2/basic/publish_rendered_movie.py`, lines 382-405) -/

/-- The `PublishedFile` row returned by `unreal_utils.last_published_info`:
`version_number` and `updated_at` of the highest-versioned publish for the
`(project, entity, name)` triple.  Timestamps (`updated_at.timestamp()`
and `os.path.getmtime`) are compared with `<` only, so they are modelled
as integers. -/
structure PublishRecord where
  version_number : Int
  updated_at : Int
  deriving DecidableEq

/-- The staleness block of `UnrealMoviePublishPlugin.accept`
(lines 382-405), entered with the `accepted`/`checked` flags set by the
earlier template checks (`True`/`True` on the normal path).

```python
info = unreal_utils.last_published_info(item.context, published_name)
if info:
    updated_at = info.get("updated_at")
    if os.path.getmtime(movie_path) < updated_at.timestamp():
        accepted = False
        return {"accepted": accepted, "checked": checked}
    version = info.get("version_number")
    fields['version'] = version + 1
    ...
```

Returns `(accepted, checked, version field used for the publish path)`. -/
def accept_staleness (accepted checked : Bool) (info : Option PublishRecord)
    (mtime : Int) : Bool × Bool × Int :=
  match info with
  | none => (accepted, checked, 1)
  | some r =>
    if mtime < r.updated_at then (false, checked, 1)
    else (accepted, checked, r.version_number + 1)

/-! ## Rendered-movie collection
(`hooks/tk-multi-publish2/basic/collector.py`, lines 418-474) -/

/-- Python `str.lower()` (ASCII suffices for the extension check). -/
def pyLower (s : String) : String :=
  String.mk (s.toList.map Char.toLower)

/-- Python tuple unpacking `a, b, c = t`: raises `ValueError` unless the
iterable has exactly 3 elements. -/
def pyUnpack3 (l : List String) : Except String (String × String × String) :=
  match l with
  | [a, b, c] => .ok (a, b, c)
  | _ => .error "ValueError"

/-- The 4-tuple returned by `ctx_from_movie_path`, as the flat value
sequence Python unpacking iterates over. -/
def tuple4List (t : String × String × String × String) : List String :=
  [t.1, t.2.1, t.2.2.1, t.2.2.2]

/-- The context-resolution fragment of
`UnrealSessionCollector.create_rendered_movie_item` (lines 418-464).

```python
_, ext = os.path.splitext(movie_path)
if ext.lower() != '.mov':
    return
ctx = unreal_utils.ctx_from_movie_path(movie_path)
if ctx:
    scene, shot, step = ctx
    context = unreal_utils.create_shot_context(scene, shot, step)
    if not context:
        context = unreal_utils.create_shot_context(scene, shot, "LAY")
    if context:
        mov_item = parent_item.create_item(...)
        mov_item.properties["context"] = context
    else:
        unreal.log_error(...)
        return
else:
    return
```

`Except.ok none` models the item being skipped (`return` with no item),
`Except.ok (some c)` models a created item carrying context `c`, and
`Except.error` an uncaught Python exception.  Note `ctx` is the *4-tuple*
`(scene, shot, "LGT", task)` while the assignment unpacks 3 names. -/
def create_rendered_movie_item (db : SGDb) (movie_path : String) :
    Except String (Option SGContext) :=
  let ext := (pySplitext movie_path).2
  if !(pyLower ext == ".mov") then .ok none
  else
    match ctx_from_movie_path movie_path with
    | none => .ok none
    | some t =>
      match pyUnpack3 (tuple4List t) with
      | .error e => .error e
      | .ok (scene, shot, step) =>
        let context := create_shot_context db scene shot (some step) none
        let context :=
          match context with
          | none => create_shot_context db scene shot (some "LAY") none
          | some c => some c
        match context with
        | none => .ok none
        | some c => .ok (some c)

/-! ## Store-level embedding of the traversal (Python list aliasing)

`get_all_paths_from_sequence` mutates Python `list` objects: the visited
list is appended to in place, recursive calls receive `copy.copy(visited)`.
To reason about these effects the heap of list objects is made explicit: a
store of cells indexed by `Nat` references; `none` models passing `None`
(the default), `some r` models passing the list object in cell `r`. -/

/-- The heap of `list` objects: one cell per list object. -/
abbrev Store (n : Nat) := List (List (Fin n))

/-- Read a cell (out-of-range reads never occur on the Python side). -/
def storeGet {n : Nat} (st : Store n) (r : Nat) : List (Fin n) :=
  (st[r]?).getD []

/-- Overwrite a cell. -/
def storeSet {n : Nat} (st : Store n) (r : Nat) (v : List (Fin n)) : Store n :=
  st.set r v

/-- The `for edit in sequence_edits[level_sequence]:` loop of
`get_all_paths_from_sequence` (lines 580-597) at store level: a cyclic
edge is skipped; otherwise a fresh cell is allocated holding
`copy.copy(visited)` and the recursion (`recur`, the function itself one
fuel step down) runs on that fresh reference, its paths prepended with the
current node and appended to `all_paths`. -/
def walk_edits {n : Nat} (node : Fin n) (r : Nat)
    (recur : Fin n → Option Nat → Store n → List (List (Fin n)) × Store n) :
    List (SequenceEdit n) → List (List (Fin n)) → Store n →
      List (List (Fin n)) × Store n
  | [], acc, st => (acc, st)
  | e :: es, acc, st =>
    if e.sequence ∈ storeGet st r then walk_edits node r recur es acc st
    else
      let cref := st.length
      let st1 := st ++ [storeGet st r]
      let res := recur e.sequence (some cref) st1
      walk_edits node r recur es (acc ++ res.1.map (fun p => node :: p)) res.2

/-- `get_all_paths_from_sequence` (lines 569-597) at store level, fuelled.

```python
def get_all_paths_from_sequence(self, level_sequence, sequence_edits, visited=None):
    if not visited:
        visited = []
    visited.append(level_sequence)
    ...
```

A falsy `visited` — `None` or an *empty list object* — is discarded and a
fresh empty list is allocated; `visited.append(...)` then mutates whichever
list object the local name is bound to at that point: the caller's list
exactly when the caller passed a non-empty list. -/
def get_all_paths_py_step {n : Nat} (adj : Fin n → List (SequenceEdit n))
    (recur : Fin n → Option Nat → Store n → List (List (Fin n)) × Store n)
    (node : Fin n) (vref : Option Nat) (st : Store n) :
    List (List (Fin n)) × Store n :=
  let alloc : Nat × Store n :=
    match vref with
    | none => (st.length, st ++ [[]])
    | some r => if storeGet st r = [] then (st.length, st ++ [[]]) else (r, st)
  let r := alloc.1
  let st1 := alloc.2
  let st2 := storeSet st1 r (storeGet st1 r ++ [node])
  if adj node = [] then ([[node]], st2)
  else walk_edits node r recur (adj node) [] st2

/-- The fuelled recursion tying the step to itself (the fuel plays no role
on the Python side; every theorem below holds for arbitrary fuel, and the
value-level function `get_all_paths_from_sequence` shows the recursion
terminates on its own). -/
def get_all_paths_py {n : Nat} (adj : Fin n → List (SequenceEdit n)) :
    Nat → Fin n → Option Nat → Store n → List (List (Fin n)) × Store n
  | 0, _, _, st => ([], st)
  | fuel + 1, node, vref, st =>
    get_all_paths_py_step adj (fun x o s => get_all_paths_py adj fuel x o s) node vref st

/-! ## Sanity checks and theorems -/

example : ctx_from_asset_path "/Game/Assets/Prop/SM_Gun/SM_Gun" = .ok (some ("Prop", "SM_Gun", "SM_Gun")) := rfl
example : ctx_from_asset_path "/Game/Assets/Prop" = .error "UnboundLocalError" := rfl
example : ctx_from_movie_path "AAA_010.mov" = some ("AAA", "AAA_010", "LGT", "Lighting") := by decide
example : up_version "Shot v002" = some "Shot v3" := by decide
example : up_version "Shot" = some "Shot v1" := by decide
example : get_version "Shot vFinal" = none := by decide
example : ctx_from_sequence "AAA_010_LAY_sub" = some ("AAA", "AAA_010", "LAY") := by decide
example : ctx_from_level "/Game/Scenes/AAA/AAA_010/LAY/lvl" = some ("AAA", "AAA_010", "LAY") := by decide
example : pySplitext "dir/AAA_010.mov" = ("dir/AAA_010", ".mov") := by decide

/-! ## Traversal lemmas and claims -/

/-- Invariant of the traversal: starting from a node not yet on the visited
stack, every returned path is duplicate-free and disjoint from the incoming
visited stack (cyclic edges are skipped, never followed). -/
theorem get_all_paths_nodup_of_not_mem {n : Nat} (adj : Fin n → List (SequenceEdit n)) :
    ∀ (node : Fin n) (visited : List (Fin n)), node ∉ visited →
      ∀ p ∈ get_all_paths_from_sequence adj node visited,
        p.Nodup ∧ ∀ x ∈ p, x ∉ visited := by
  intro node visited
  induction node, visited using get_all_paths_from_sequence.induct adj with
  | case1 node visited hempty =>
    intro hnv p hp
    rw [get_all_paths_from_sequence] at hp
    simp only [hempty, if_pos, List.mem_singleton] at hp
    subst hp
    refine ⟨List.nodup_singleton _, ?_⟩
    intro x hx
    simp only [List.mem_singleton] at hx
    subst hx
    exact hnv
  | case2 node visited v hne ih =>
    intro hnv p hp
    rw [get_all_paths_from_sequence] at hp
    simp only [if_neg hne, List.mem_flatMap] at hp
    obtain ⟨e, _he, hp⟩ := hp
    by_cases hmem : e.sequence ∈ visited ++ [node]
    · simp only [dif_pos hmem, List.not_mem_nil] at hp
    · simp only [dif_neg hmem, List.mem_map] at hp
      obtain ⟨p1, hp1, rfl⟩ := hp
      obtain ⟨hnodup, havoid⟩ := ih e hmem hmem p1 hp1
      have hnodemem : node ∈ visited ++ [node] := by simp
      refine ⟨List.nodup_cons.mpr ⟨fun hc => havoid node hc hnodemem, hnodup⟩, ?_⟩
      intro x hx
      rcases List.mem_cons.mp hx with rfl | hx1
      · exact hnv
      · intro hc
        exact havoid x hx1 (List.mem_append.mpr (Or.inl hc))



/-- An `Except.ok` run of `walk_edits_src` is exactly the corresponding
`flatMap` of per-edge contributions: no edge on the way raised, and each
edge contributed its recursion's paths prefixed with the node. -/
theorem walk_edits_src_ok {n : Nat} (node : Fin n)
    (recur : Fin n → Except String (List (List (Fin n))))
    (g : SequenceEdit n → List (List (Fin n)))
    (hag : ∀ (e : SequenceEdit n) (ps : List (List (Fin n))),
      recur e.sequence = .ok ps → g e = ps.map (fun p => node :: p)) :
    ∀ (es : List (SequenceEdit n)) (acc l : List (List (Fin n))),
      walk_edits_src node recur es acc = .ok l →
      l = acc ++ es.flatMap g := by
  intro es
  induction es with
  | nil =>
    intro acc l h
    rw [walk_edits_src] at h
    injection h with h1
    simp [h1]
  | cons e es ih =>
    intro acc l h
    rw [walk_edits_src] at h
    cases hrec : recur e.sequence with
    | error err =>
      rw [hrec] at h
      cases h
    | ok ps =>
      rw [hrec] at h
      have h2 := ih (acc ++ ps.map (fun p => node :: p)) l h
      rw [h2, List.flatMap_cons, hag e ps hrec, List.append_assoc]

/-- On every execution that returns normally — that is, whenever the
traversal never detects a cycle edge, so the broken warning line is never
reached — the exception-faithful embedding and the cycle-skipping
value-level embedding produce the same paths. -/
theorem get_all_paths_src_agrees {n : Nat} (adj : Fin n → List (SequenceEdit n)) :
    ∀ (node : Fin n) (visited : List (Fin n)) (l : List (List (Fin n))),
      get_all_paths_from_sequence_src adj node visited = .ok l →
      get_all_paths_from_sequence adj node visited = l := by
  intro node visited
  induction node, visited using get_all_paths_from_sequence_src.induct adj with
  | case1 node visited hempty =>
    intro l h
    rw [get_all_paths_from_sequence_src] at h
    simp only [hempty, if_pos] at h
    injection h with h1
    rw [get_all_paths_from_sequence]
    simp [hempty, h1]
  | case2 node visited v hne ih =>
    intro l h
    rw [get_all_paths_from_sequence_src] at h
    simp only [if_neg hne] at h
    have hl := walk_edits_src_ok node
      (fun x => if _h : x ∈ v then .error "TypeError"
        else get_all_paths_from_sequence_src adj x v)
      (fun e => if _h : e.sequence ∈ v then []
        else (get_all_paths_from_sequence adj e.sequence v).map (fun p => node :: p))
      (fun e ps hrec => by
        simp only [] at hrec ⊢
        by_cases hmem : e.sequence ∈ v
        · rw [dif_pos hmem] at hrec
          cases hrec
        · rw [dif_neg hmem] at hrec
          rw [dif_neg hmem, ih e.sequence hmem ps hrec])
      (adj node) [] l h
    rw [get_all_paths_from_sequence]
    simp only [if_neg hne]
    rw [hl]
    simp only [List.nil_append]

/-- Claim C2 (failing-input evidence): the cycle is *not* reported by a
warning and the traversal does *not* continue.  When a cycle edge is
found, the warning message's `"->".join(visited)` joins `LevelSequence`
objects and raises `TypeError` before `logger.warning` runs, aborting the
whole traversal: on the cyclic graph `0 -> 1 -> 0` (with root `2`) the
faithful embedding returns that error instead of the non-cyclic path the
spec promises.  On cycle-free inputs the traversal is sound: the chain
returns its one path normally, and every normal (non-raising) run agrees
with the cycle-skipping value-level function used by the other claims. -/
theorem claim_c2_cycle_warning_raises :
    get_all_paths_from_sequence_src cycleAdj 0 [] = .error "TypeError" ∧
    get_all_paths_from_sequence_src chainAdj 0 [] = .ok [[0, 1, 2]] ∧
    (∀ (n : Nat) (adj : Fin n → List (SequenceEdit n)) (node : Fin n)
        (visited : List (Fin n)) (l : List (List (Fin n))),
      get_all_paths_from_sequence_src adj node visited = .ok l →
      get_all_paths_from_sequence adj node visited = l) := by
  refine ⟨?_, ?_, ?_⟩
  · rw [get_all_paths_from_sequence_src]
    norm_num [cycleAdj, walk_edits_src]
    rw [get_all_paths_from_sequence_src]
    norm_num [cycleAdj, walk_edits_src]
    rfl
  · rw [get_all_paths_from_sequence_src]
    norm_num [chainAdj, walk_edits_src]
    rw [get_all_paths_from_sequence_src]
    norm_num [chainAdj, walk_edits_src]
    rw [get_all_paths_from_sequence_src]
    norm_num [chainAdj, walk_edits_src]
    rfl
  · intro n adj node visited l h
    exact get_all_paths_src_agrees adj node visited l h

/-- Witness for claim C2: the agreement part applied to the concrete
cycle-free chain, whose faithful run returns `.ok [[0, 1, 2]]`. -/
theorem claim_c2_cycle_warning_raises_witness :
    get_all_paths_from_sequence chainAdj 0 [] = [[0, 1, 2]] :=
  claim_c2_cycle_warning_raises.2.2 3 chainAdj 0 [] [[0, 1, 2]]
    claim_c2_cycle_warning_raises.2.1

/-- Claim C4: a leaf referenced by two distinct root masters yields exactly
two paths, one per master, in edit order; neither path mentions the other
master (sibling branches each recurse on their own copy of the visited
stack, so one branch's visit never leaks into the other). -/
theorem claim_c4_alternate_cut_paths {n : Nat} (adj : Fin n → List (SequenceEdit n))
    (leaf m1 m2 : Fin n) (t1 s1 t2 s2 : Nat)
    (hleaf : adj leaf = [⟨m1, t1, s1⟩, ⟨m2, t2, s2⟩])
    (hm1 : adj m1 = []) (hm2 : adj m2 = [])
    (hm1l : m1 ≠ leaf) (hm2l : m2 ≠ leaf) (hm12 : m1 ≠ m2) :
    get_all_paths_from_sequence adj leaf [] = [[leaf, m1], [leaf, m2]] ∧
    m2 ∉ ([leaf, m1] : List (Fin n)) ∧ m1 ∉ ([leaf, m2] : List (Fin n)) := by
  refine ⟨?_, ?_, ?_⟩
  · rw [get_all_paths_from_sequence]
    rw [hleaf]
    simp only [List.nil_append, reduceCtorEq, if_false, List.flatMap_cons, List.flatMap_nil,
      List.append_nil]
    rw [dif_neg (by simp [hm1l]), dif_neg (by simp [hm2l])]
    rw [get_all_paths_from_sequence, get_all_paths_from_sequence]
    simp [hm1, hm2]
  · simp [hm2l, Ne.symm hm12]
  · simp [hm1l, hm12]



/-- Witness for claim C4 on the concrete two-master graph. -/
theorem claim_c4_alternate_cut_paths_witness :
    get_all_paths_from_sequence forkAdj 0 [] = [[0, 1], [0, 2]] ∧
    (2 : Fin 3) ∉ ([0, 1] : List (Fin 3)) ∧ (1 : Fin 3) ∉ ([0, 2] : List (Fin 3)) :=
  claim_c4_alternate_cut_paths forkAdj 0 1 2 5 6 7 8 rfl rfl rfl
    (by decide) (by decide) (by decide)

/-- Claim C8: a node with no recorded parent edits yields the single
singleton path `[[node]]` (whatever the incoming visited stack), and on a
single 3-level chain `leaf -> s -> m` the traversal returns exactly one
path `[leaf, s, m]`, which the consumer `collect_level_sequence` reverses
to `[m, s, leaf]` (master, middle sequence, leaf). -/
theorem claim_c8_chain_paths :
    (∀ (n : Nat) (adj : Fin n → List (SequenceEdit n)) (node : Fin n)
        (visited : List (Fin n)), adj node = [] →
      get_all_paths_from_sequence adj node visited = [[node]]) ∧
    (∀ (n : Nat) (adj : Fin n → List (SequenceEdit n)) (leaf s m : Fin n)
        (t1 c1 t2 c2 : Nat),
      adj leaf = [⟨s, t1, c1⟩] → adj s = [⟨m, t2, c2⟩] → adj m = [] →
      s ≠ leaf → m ≠ leaf → m ≠ s →
      get_all_paths_from_sequence adj leaf [] = [[leaf, s, m]] ∧
      collect_level_sequence_paths adj leaf = [[m, s, leaf]]) := by
  constructor
  · intro n adj node visited hempty
    rw [get_all_paths_from_sequence]
    simp [hempty]
  · intro n adj leaf s m t1 c1 t2 c2 hleaf hs hm hsl hml hms
    have key : get_all_paths_from_sequence adj leaf [] = [[leaf, s, m]] := by
      rw [get_all_paths_from_sequence]
      rw [hleaf]
      simp only [List.nil_append, reduceCtorEq, if_false, List.flatMap_cons, List.flatMap_nil,
        List.append_nil]
      rw [dif_neg (by simp [hsl])]
      rw [get_all_paths_from_sequence]
      rw [hs]
      simp only [reduceCtorEq, if_false, List.flatMap_cons, List.flatMap_nil, List.append_nil]
      rw [dif_neg (by simp [hml, hms])]
      rw [get_all_paths_from_sequence]
      simp [hm]
    exact ⟨key, by rw [collect_level_sequence_paths, key]; rfl⟩



/-- Witness for claim C8 on the concrete 3-level chain (and its root). -/
theorem claim_c8_chain_paths_witness :
    get_all_paths_from_sequence chainAdj 2 [] = [[2]] ∧
    get_all_paths_from_sequence chainAdj 0 [] = [[0, 1, 2]] ∧
    collect_level_sequence_paths chainAdj 0 = [[2, 1, 0]] :=
  ⟨claim_c8_chain_paths.1 3 chainAdj 2 [] rfl,
   claim_c8_chain_paths.2 3 chainAdj 0 1 2 0 0 0 0 rfl rfl rfl
     (by decide) (by decide) (by decide)⟩

/-! ## Parser claims -/

/-- Claim C1 (failing-input evidence): `ctx_from_asset_path` is *not* total.
On a path whose first three segments match the assets marker but which has
only four segments, no branch assigns `asset_type`/`code`/`step`, so the
final `return` raises `UnboundLocalError` instead of returning `None`
(likewise for the bare marker itself).  Well-formed and non-matching inputs
behave as specified, and the four other parsers return `None` on the
analogous malformed inputs. -/
theorem claim_c1_parser_totality :
    ctx_from_asset_path "/Game/Assets/Prop" = .error "UnboundLocalError" ∧
    ctx_from_asset_path "/Game/Assets" = .error "UnboundLocalError" ∧
    ctx_from_asset_path "/Game/Assets/Prop/SM_Gun" = .ok (some ("Prop", "SM_Gun", "MDL")) ∧
    ctx_from_asset_path "/Game/Assets/Prop/SM_Gun/MDL/SM_Gun" =
      .ok (some ("Prop", "SM_Gun", "MDL")) ∧
    ctx_from_asset_path "/Foo/Bar" = .ok none ∧
    ctx_from_shot_path "/Game/Scenes/AAA" = none ∧
    ctx_from_movie_path "nounderscore.mov" = none ∧
    ctx_from_sequence "bad" = none ∧
    ctx_from_level "x" = none :=
  ⟨rfl, rfl, rfl, rfl, rfl, by decide, by decide, by decide, by decide⟩

/-- Claim C6 counterexample: `ctx_from_movie_path` applies no extension
allow-list (the `.mov` check is commented out) — a `.txt` or `.exe` file is
parsed just like a movie — and the optional 3rd underscore part becomes the
free-text *task* name while the step component is always the constant
`"LGT"`, never a step hint taken from the name. -/
theorem claim_c6_movie_parser_counterexample :
    ctx_from_movie_path "AAA_010.txt" = some ("AAA", "AAA_010", "LGT", "Lighting") ∧
    ctx_from_movie_path "AAA_010.exe" = some ("AAA", "AAA_010", "LGT", "Lighting") ∧
    ctx_from_movie_path "AAA_010_ANIM.mov" = some ("AAA", "AAA_010", "LGT", "ANIM") := by
  refine ⟨by decide, by decide, by decide⟩

/-- Claim C6 as amended: `ctx_from_movie_path` accepts any extension (no
allow-list); it splits the first dot-component of the basename on `_` into
at most 3 parts, requires at least 2, and returns
`(scene, scene_part1, "LGT", task)` where the step component is always the
fixed `"LGT"` and the 3rd part, when present, is the task name, defaulting
to `"Lighting"`. -/
theorem claim_c6_movie_parser_amended :
    (∀ (path scene shot st task : String),
      ctx_from_movie_path path = some (scene, shot, st, task) →
      st = "LGT" ∧ ∃ p1, shot = scene ++ "_" ++ p1) ∧
    ctx_from_movie_path "AAA_010.mov" = some ("AAA", "AAA_010", "LGT", "Lighting") ∧
    ctx_from_movie_path "AAA_010.txt" = some ("AAA", "AAA_010", "LGT", "Lighting") ∧
    ctx_from_movie_path "AAA_010_Anim_extra.mov" =
      some ("AAA", "AAA_010", "LGT", "Anim_extra") ∧
    ctx_from_movie_path "AAA.mov" = none := by
  refine ⟨?_, by decide, by decide, by decide, by decide⟩
  intro path scene shot st task h
  simp only [ctx_from_movie_path] at h
  rcases hs : pySplitMax ((pySplit (pyBasename path) ".").headD "") "_" 2 with
    _ | ⟨a, _ | ⟨b, rest⟩⟩
  · rw [hs] at h
    simp at h
  · rw [hs] at h
    simp at h
  · rw [hs] at h
    have hlen : ¬((a :: b :: rest).length < 2) := by
      simp only [List.length_cons]
      omega
    rw [if_neg hlen] at h
    have hinter : String.intercalate "_" (List.take 2 (a :: b :: rest)) = a ++ "_" ++ b := by
      cases rest <;> rfl
    cases rest with
    | nil =>
      simp only [List.drop_succ_cons, List.drop_nil, List.drop_zero, List.headD_cons,
        Option.some.injEq, Prod.mk.injEq] at h
      obtain ⟨h1, h2, h3, h4⟩ := h
      subst h1
      subst h3
      exact ⟨rfl, ⟨b, by rw [← h2, ← hinter]⟩⟩
    | cons c cs =>
      simp only [List.drop_succ_cons, List.drop_nil, List.drop_zero, List.headD_cons,
        Option.some.injEq, Prod.mk.injEq] at h
      obtain ⟨h1, h2, h3, h4⟩ := h
      subst h1
      subst h3
      exact ⟨rfl, ⟨b, by rw [← h2, ← hinter]⟩⟩

/-- Witness for the amended claim C6: the general component shape applied
to a concrete parsed filename. -/
theorem claim_c6_movie_parser_amended_witness :
    "LGT" = "LGT" ∧ ∃ p1, "AAA_010" = "AAA" ++ "_" ++ p1 :=
  claim_c6_movie_parser_amended.1 "AAA_010.mov" "AAA" "AAA_010" "LGT" "Lighting"
    (by decide)

/-- Claim C7 counterexample: bumping does not preserve zero padding, because
the rewrite formats the incremented integer with plain `str` formatting:
`up_version("Shot v002")` yields `"Shot v3"`, not `"Shot v003"`. -/
theorem claim_c7_version_counterexample :
    up_version "Shot v002" = some "Shot v3" ∧ ("Shot v3" : String) ≠ "Shot v003" :=
  ⟨by decide, by decide⟩

/-- Claim C7 as amended: the triplet is consistent — whenever `get_version`
succeeds, `up_version x = set_version x (get_version x + 1)` on the same
base name — and `up_version("Shot") = "Shot v1"`; but the incremented
version is rendered without padding (`"Shot v002"` bumps to `"Shot v3"`),
`get_version` returns `0` only when the `" v"` separator is absent
altogether (a non-numeric tail gives `None`), and `up_version` raises
(`int(ver)` uncaught) exactly on the inputs where `get_version` returns
`None`. -/
theorem claim_c7_version_triplet_amended :
    (∀ (x : String) (v : Int), get_version x = some v →
      up_version x = some (set_version x (v + 1))) ∧
    up_version "Shot" = some "Shot v1" ∧
    up_version "Shot v002" = some "Shot v3" ∧
    (∀ x : String, (pyRpartition x " v").2.1 = false → get_version x = some 0) ∧
    (∀ x : String, get_version x = none ↔ up_version x = none) := by
  refine ⟨?_, by decide, by decide, ?_, ?_⟩
  · intro x v h
    rcases hp : pyRpartition x " v" with ⟨p1, ok, tail⟩
    cases ok with
    | false =>
      rw [get_version, hp] at h
      simp only [Bool.not_false, if_pos, Option.some.injEq] at h
      subst h
      rw [up_version, hp, set_version, hp]
      norm_num
    | true =>
      rw [get_version, hp] at h
      simp only [Bool.not_true, Bool.false_eq_true, if_false] at h
      rw [up_version, hp, set_version, hp]
      simp [h]
  · intro x h
    rw [get_version]
    rw [h]
    simp
  · intro x
    rcases hp : pyRpartition x " v" with ⟨p1, ok, tail⟩
    cases ok with
    | false =>
      rw [get_version, up_version, hp]
      simp
    | true =>
      rw [get_version, up_version, hp]
      simp

/-- Witness for the amended claim C7: the consistency law applied at
`"Shot v002"`, whose parsed version is `2`. -/
theorem claim_c7_version_triplet_amended_witness :
    up_version "Shot v002" = some (set_version "Shot v002" (2 + 1)) :=
  claim_c7_version_triplet_amended.1 "Shot v002" 2 (by decide)



/-- Claim C3: the two-tier task fallback of both context resolvers, given
that the named entity exists.  (a) With a truthy task hint whose exact
content match exists, that task is chosen (and its content equals the
hint).  (b) When the hint is falsy or its lookup misses, a task matched by
pipeline-step short name is chosen — resolution succeeds via the step
fallback.  (c) When both lookups miss, the resolver returns `None`.  The
same protocol holds for shots and assets. -/
theorem claim_c3_task_fallback :
    (∀ (db : SGDb) (scene shot : String) (step task_name : Option String)
        (sh : ShotRow) (t : TaskRow),
      db.shots.find? (fun s => s.sequence_code == scene && s.code == shot) = some sh →
      pyTruthy task_name = true →
      db.tasks.find? (fun r =>
        r.entity_type == "Shot" && r.entity_id == sh.id && some r.content == task_name) =
          some t →
      create_shot_context db scene shot step task_name = some ⟨"Task", t.id⟩ ∧
        some t.content = task_name) ∧
    (∀ (db : SGDb) (scene shot : String) (step task_name : Option String)
        (sh : ShotRow) (t : TaskRow),
      db.shots.find? (fun s => s.sequence_code == scene && s.code == shot) = some sh →
      (pyTruthy task_name = false ∨
        db.tasks.find? (fun r =>
          r.entity_type == "Shot" && r.entity_id == sh.id && some r.content == task_name) =
            none) →
      db.tasks.find? (fun r =>
        r.step_short_name == step && r.entity_type == "Shot" && r.entity_id == sh.id) =
          some t →
      create_shot_context db scene shot step task_name = some ⟨"Task", t.id⟩ ∧
        t.step_short_name = step) ∧
    (∀ (db : SGDb) (scene shot : String) (step task_name : Option String) (sh : ShotRow),
      db.shots.find? (fun s => s.sequence_code == scene && s.code == shot) = some sh →
      (pyTruthy task_name = false ∨
        db.tasks.find? (fun r =>
          r.entity_type == "Shot" && r.entity_id == sh.id && some r.content == task_name) =
            none) →
      db.tasks.find? (fun r =>
        r.step_short_name == step && r.entity_type == "Shot" && r.entity_id == sh.id) =
          none →
      create_shot_context db scene shot step task_name = none) ∧
    (∀ (db : SGDb) (asset_type asset : String) (step task_name : Option String)
        (ar : AssetRow) (t : TaskRow),
      db.assets.find? (fun a => a.sg_asset_type == asset_type && a.code == asset) = some ar →
      pyTruthy task_name = true →
      db.tasks.find? (fun r =>
        r.entity_type == "Asset" && r.entity_id == ar.id && some r.content == task_name) =
          some t →
      create_asset_context db asset_type asset step task_name = some ⟨"Task", t.id⟩ ∧
        some t.content = task_name) ∧
    (∀ (db : SGDb) (asset_type asset : String) (step task_name : Option String)
        (ar : AssetRow) (t : TaskRow),
      db.assets.find? (fun a => a.sg_asset_type == asset_type && a.code == asset) = some ar →
      (pyTruthy task_name = false ∨
        db.tasks.find? (fun r =>
          r.entity_type == "Asset" && r.entity_id == ar.id && some r.content == task_name) =
            none) →
      db.tasks.find? (fun r =>
        r.step_short_name == step && r.entity_type == "Asset" && r.entity_id == ar.id) =
          some t →
      create_asset_context db asset_type asset step task_name = some ⟨"Task", t.id⟩ ∧
        t.step_short_name = step) ∧
    (∀ (db : SGDb) (asset_type asset : String) (step task_name : Option String)
        (ar : AssetRow),
      db.assets.find? (fun a => a.sg_asset_type == asset_type && a.code == asset) = some ar →
      (pyTruthy task_name = false ∨
        db.tasks.find? (fun r =>
          r.entity_type == "Asset" && r.entity_id == ar.id && some r.content == task_name) =
            none) →
      db.tasks.find? (fun r =>
        r.step_short_name == step && r.entity_type == "Asset" && r.entity_id == ar.id) =
          none →
      create_asset_context db asset_type asset step task_name = none) := by
  refine ⟨?_, ?_, ?_, ?_, ?_, ?_⟩
  · intro db scene shot step task_name sh t hsh htr hct
    constructor
    · rw [create_shot_context, hsh]
      rw [htr]
      simp only [if_true, hct]
    · have hpred := List.find?_some hct
      simp only [Bool.and_eq_true, beq_iff_eq] at hpred
      exact hpred.2
  · intro db scene shot step task_name sh t hsh hmiss hst
    constructor
    · rw [create_shot_context, hsh]
      rcases hmiss with hfalse | hnone
      · rw [hfalse]
        simp only [Bool.false_eq_true, if_false, hst]
      · rcases htr : pyTruthy task_name with _ | _
        · simp only [Bool.false_eq_true, if_false, hst]
        · simp only [if_true, hnone, hst]
    · have hpred := List.find?_some hst
      simp only [Bool.and_eq_true, beq_iff_eq] at hpred
      exact hpred.1.1
  · intro db scene shot step task_name sh hsh hmiss hst
    rw [create_shot_context, hsh]
    rcases hmiss with hfalse | hnone
    · rw [hfalse]
      simp only [Bool.false_eq_true, if_false, hst]
    · rcases htr : pyTruthy task_name with _ | _
      · simp only [Bool.false_eq_true, if_false, hst]
      · simp only [if_true, hnone, hst]
  · intro db asset_type asset step task_name ar t har htr hct
    constructor
    · rw [create_asset_context, har]
      rw [htr]
      simp only [if_true, hct]
    · have hpred := List.find?_some hct
      simp only [Bool.and_eq_true, beq_iff_eq] at hpred
      exact hpred.2
  · intro db asset_type asset step task_name ar t har hmiss hst
    constructor
    · rw [create_asset_context, har]
      rcases hmiss with hfalse | hnone
      · rw [hfalse]
        simp only [Bool.false_eq_true, if_false, hst]
      · rcases htr : pyTruthy task_name with _ | _
        · simp only [Bool.false_eq_true, if_false, hst]
        · simp only [if_true, hnone, hst]
    · have hpred := List.find?_some hst
      simp only [Bool.and_eq_true, beq_iff_eq] at hpred
      exact hpred.1.1
  · intro db asset_type asset step task_name ar har hmiss hst
    rw [create_asset_context, har]
    rcases hmiss with hfalse | hnone
    · rw [hfalse]
      simp only [Bool.false_eq_true, if_false, hst]
    · rcases htr : pyTruthy task_name with _ | _
      · simp only [Bool.false_eq_true, if_false, hst]
      · simp only [if_true, hnone, hst]

/-- Witness for claim C3: a shot with a step-matched `"LAY"` task but no
task named after the `"Camera"` hint resolves through the step fallback. -/
theorem claim_c3_task_fallback_witness :
    create_shot_context ⟨[⟨11, "AAA", "AAA_010"⟩], [], [⟨7, "Shot", 11, "Layout", some "LAY"⟩]⟩
        "AAA" "AAA_010" (some "LAY") (some "Camera") = some ⟨"Task", 7⟩ ∧
      (⟨7, "Shot", 11, "Layout", some "LAY"⟩ : TaskRow).step_short_name = some "LAY" :=
  claim_c3_task_fallback.2.1 ⟨[⟨11, "AAA", "AAA_010"⟩], [], [⟨7, "Shot", 11, "Layout", some "LAY"⟩]⟩
    "AAA" "AAA_010" (some "LAY") (some "Camera")
    ⟨11, "AAA", "AAA_010"⟩ ⟨7, "Shot", 11, "Layout", some "LAY"⟩
    (by decide) (Or.inr (by decide)) (by decide)



/-- Claim C5: when a previous publish record exists, the candidate is
rejected exactly when the artifact's modification time is strictly older
than the record's `updated_at`; an mtime equal to `updated_at` (or newer)
is accepted, and the next version is then the record's version plus one. -/
theorem claim_c5_staleness_strict (r : PublishRecord) (mtime : Int) :
    ((accept_staleness true true (some r) mtime).1 = false ↔ mtime < r.updated_at) ∧
    (mtime = r.updated_at →
      accept_staleness true true (some r) mtime = (true, true, r.version_number + 1)) ∧
    (r.updated_at ≤ mtime →
      accept_staleness true true (some r) mtime = (true, true, r.version_number + 1)) := by
  refine ⟨?_, ?_, ?_⟩
  · constructor
    · intro h
      by_contra hlt
      rw [accept_staleness, if_neg hlt] at h
      simp at h
    · intro hlt
      rw [accept_staleness, if_pos hlt]
  · intro heq
    rw [accept_staleness, if_neg (by omega)]
  · intro hle
    rw [accept_staleness, if_neg (by omega)]

/-- Witness for claim C5: a record updated at time `100` against an
artifact of the very same mtime `100` — accepted, not stale. -/
theorem claim_c5_staleness_strict_witness :
    accept_staleness true true (some ⟨4, 100⟩) 100 = (true, true, 4 + 1) :=
  (claim_c5_staleness_strict ⟨4, 100⟩ 100).2.1 rfl



/-- Claim C9 (failing-input evidence): for every database state, a movie
filename that parses successfully makes `create_rendered_movie_item` raise
`ValueError` — `ctx_from_movie_path` returns a 4-tuple and the collector
unpacks it into 3 names — so the `"LAY"` retry below the unpacking is
unreachable on exactly the items it was written for.  Non-`.mov` files and
unparsable names are still skipped cleanly. -/
theorem claim_c9_lay_retry_unreachable :
    (∀ db : SGDb, create_rendered_movie_item db "AAA_010.mov" = .error "ValueError") ∧
    (∀ db : SGDb, create_rendered_movie_item db "AAA_010.txt" = .ok none) ∧
    (∀ db : SGDb, create_rendered_movie_item db "nounderscore.mov" = .ok none) :=
  ⟨fun _ => rfl, fun _ => rfl, fun _ => rfl⟩


theorem get_all_paths_py_succ {n : Nat} (adj : Fin n → List (SequenceEdit n))
    (fuel : Nat) (node : Fin n) (vref : Option Nat) (st : Store n) :
    get_all_paths_py adj (fuel + 1) node vref st =
      get_all_paths_py_step adj (fun x o s => get_all_paths_py adj fuel x o s) node vref st :=
  rfl

theorem storeGet_append_lt {n : Nat} (st : Store n) (l : Store n) (i : Nat)
    (h : i < st.length) : storeGet (st ++ l) i = storeGet st i := by
  rw [storeGet, storeGet, List.getElem?_append, if_pos h]

theorem storeGet_set_ne {n : Nat} (st : Store n) (r i : Nat) (v : List (Fin n))
    (h : r ≠ i) : storeGet (storeSet st r v) i = storeGet st i := by
  rw [storeGet, storeSet, storeGet, List.getElem?_set_ne h]

theorem storeGet_set_self {n : Nat} (st : Store n) (r : Nat) (v : List (Fin n))
    (h : r < st.length) : storeGet (storeSet st r v) r = v := by
  rw [storeGet, storeSet, List.getElem?_set_self h]
  rfl

theorem walk_edits_length {n : Nat} (node : Fin n) (r : Nat)
    (recur : Fin n → Option Nat → Store n → List (List (Fin n)) × Store n)
    (hrec : ∀ x o s, s.length ≤ (recur x o s).2.length) :
    ∀ (es : List (SequenceEdit n)) (acc : List (List (Fin n))) (st : Store n),
      st.length ≤ (walk_edits node r recur es acc st).2.length := by
  intro es
  induction es with
  | nil => intro acc st; simp [walk_edits]
  | cons e es ih =>
    intro acc st
    rw [walk_edits]
    by_cases hmem : e.sequence ∈ storeGet st r
    · rw [if_pos hmem]
      exact ih acc st
    · rw [if_neg hmem]
      simp only []
      have h1 : st.length ≤ (st ++ [storeGet st r]).length := by simp
      have h2 := hrec e.sequence (some st.length) (st ++ [storeGet st r])
      have h3 := ih (acc ++ (recur e.sequence (some st.length)
        (st ++ [storeGet st r])).1.map (fun p => node :: p))
        (recur e.sequence (some st.length) (st ++ [storeGet st r])).2
      omega

theorem get_all_paths_py_step_length {n : Nat} (adj : Fin n → List (SequenceEdit n))
    (recur : Fin n → Option Nat → Store n → List (List (Fin n)) × Store n)
    (hrec : ∀ x o s, s.length ≤ (recur x o s).2.length) :
    ∀ (node : Fin n) (vref : Option Nat) (st : Store n),
      st.length ≤ (get_all_paths_py_step adj recur node vref st).2.length := by
  intro node vref st
  unfold get_all_paths_py_step
  rcases vref with _ | r
  · simp only []
    by_cases hadj : adj node = []
    · rw [if_pos hadj]
      simp [storeSet]
    · rw [if_neg hadj]
      have := walk_edits_length node (st.length) recur hrec (adj node) []
        (storeSet (st ++ [[]]) st.length (storeGet (st ++ [[]]) st.length ++ [node]))
      simp only [storeSet, List.length_set, List.length_append] at this ⊢
      omega
  · simp only []
    by_cases hempty : storeGet st r = []
    · rw [if_pos hempty]
      simp only []
      by_cases hadj : adj node = []
      · rw [if_pos hadj]
        simp [storeSet]
      · rw [if_neg hadj]
        have := walk_edits_length node (st.length) recur hrec (adj node) []
          (storeSet (st ++ [[]]) st.length (storeGet (st ++ [[]]) st.length ++ [node]))
        simp only [storeSet, List.length_set, List.length_append] at this ⊢
        omega
    · rw [if_neg hempty]
      simp only []
      by_cases hadj : adj node = []
      · rw [if_pos hadj]
        simp [storeSet]
      · rw [if_neg hadj]
        have := walk_edits_length node r recur hrec (adj node) []
          (storeSet st r (storeGet st r ++ [node]))
        simp only [storeSet, List.length_set] at this ⊢
        omega

theorem get_all_paths_py_length {n : Nat} (adj : Fin n → List (SequenceEdit n)) :
    ∀ (fuel : Nat) (node : Fin n) (vref : Option Nat) (st : Store n),
      st.length ≤ (get_all_paths_py adj fuel node vref st).2.length := by
  intro fuel
  induction fuel with
  | zero => intro node vref st; simp [get_all_paths_py]
  | succ fuel ih =>
    intro node vref st
    rw [get_all_paths_py_succ]
    exact get_all_paths_py_step_length adj _ (fun x o s => ih x o s) node vref st

theorem walk_edits_frame {n : Nat} (node : Fin n) (r : Nat)
    (recur : Fin n → Option Nat → Store n → List (List (Fin n)) × Store n)
    (hlen : ∀ x o s, s.length ≤ (recur x o s).2.length)
    (hframe : ∀ x rr s i, i < s.length → i ≠ rr →
      storeGet (recur x (some rr) s).2 i = storeGet s i) :
    ∀ (es : List (SequenceEdit n)) (acc : List (List (Fin n))) (st : Store n) (i : Nat),
      i < st.length → storeGet (walk_edits node r recur es acc st).2 i = storeGet st i := by
  intro es
  induction es with
  | nil =>
    intro acc st i hi
    rw [walk_edits]
  | cons e es ih =>
    intro acc st i hi
    rw [walk_edits]
    by_cases hmem : e.sequence ∈ storeGet st r
    · rw [if_pos hmem]
      exact ih acc st i hi
    · rw [if_neg hmem]
      simp only []
      have hi1 : i < (st ++ [storeGet st r]).length := by
        simp only [List.length_append, List.length_cons, List.length_nil]
        omega
      have h1 : storeGet (st ++ [storeGet st r]) i = storeGet st i :=
        storeGet_append_lt st _ i hi
      have h2 : storeGet (recur e.sequence (some st.length) (st ++ [storeGet st r])).2 i =
          storeGet (st ++ [storeGet st r]) i :=
        hframe e.sequence st.length (st ++ [storeGet st r]) i hi1 (by omega)
      have hi2 : i < (recur e.sequence (some st.length) (st ++ [storeGet st r])).2.length :=
        lt_of_lt_of_le hi1 (hlen e.sequence (some st.length) (st ++ [storeGet st r]))
      have h3 := ih (acc ++ (recur e.sequence (some st.length)
          (st ++ [storeGet st r])).1.map (fun p => node :: p))
        (recur e.sequence (some st.length) (st ++ [storeGet st r])).2 i hi2
      rw [h3, h2, h1]

theorem get_all_paths_py_step_frame {n : Nat} (adj : Fin n → List (SequenceEdit n))
    (recur : Fin n → Option Nat → Store n → List (List (Fin n)) × Store n)
    (hlen : ∀ x o s, s.length ≤ (recur x o s).2.length)
    (hframe : ∀ x rr s i, i < s.length → i ≠ rr →
      storeGet (recur x (some rr) s).2 i = storeGet s i) :
    ∀ (node : Fin n) (vref : Option Nat) (st : Store n) (i : Nat), i < st.length →
      (∀ rr, vref = some rr → i ≠ rr ∨ storeGet st rr = []) →
      storeGet (get_all_paths_py_step adj recur node vref st).2 i = storeGet st i := by
  intro node vref st i hi hcond
  unfold get_all_paths_py_step
  rcases vref with _ | rr
  · simp only []
    have hlen1 : i < (st ++ [([] : List (Fin n))]).length := by
      simp only [List.length_append, List.length_cons, List.length_nil]
      omega
    have hkeep : storeGet (storeSet (st ++ [[]]) st.length
        (storeGet (st ++ [[]]) st.length ++ [node])) i = storeGet st i := by
      rw [storeGet_set_ne _ _ _ _ (by omega), storeGet_append_lt st _ i hi]
    by_cases hadj : adj node = []
    · rw [if_pos hadj]
      exact hkeep
    · rw [if_neg hadj]
      have hlen2 : i < (storeSet (st ++ [[]]) st.length
          (storeGet (st ++ [[]]) st.length ++ [node])).length := by
        simp only [storeSet, List.length_set, List.length_append, List.length_cons,
          List.length_nil]
        omega
      rw [walk_edits_frame node st.length recur hlen hframe (adj node) [] _ i hlen2]
      exact hkeep
  · simp only []
    by_cases hempty : storeGet st rr = []
    · rw [if_pos hempty]
      simp only []
      have hkeep : storeGet (storeSet (st ++ [[]]) st.length
          (storeGet (st ++ [[]]) st.length ++ [node])) i = storeGet st i := by
        rw [storeGet_set_ne _ _ _ _ (by omega), storeGet_append_lt st _ i hi]
      by_cases hadj : adj node = []
      · rw [if_pos hadj]
        exact hkeep
      · rw [if_neg hadj]
        have hlen2 : i < (storeSet (st ++ [[]]) st.length
            (storeGet (st ++ [[]]) st.length ++ [node])).length := by
          simp only [storeSet, List.length_set, List.length_append, List.length_cons,
            List.length_nil]
          omega
        rw [walk_edits_frame node st.length recur hlen hframe (adj node) [] _ i hlen2]
        exact hkeep
    · rw [if_neg hempty]
      simp only []
      have hir : i ≠ rr := by
        rcases hcond rr rfl with h | h
        · exact h
        · exact absurd h hempty
      have hkeep : storeGet (storeSet st rr (storeGet st rr ++ [node])) i = storeGet st i :=
        storeGet_set_ne _ _ _ _ (Ne.symm hir)
      by_cases hadj : adj node = []
      · rw [if_pos hadj]
        exact hkeep
      · rw [if_neg hadj]
        have hlen2 : i < (storeSet st rr (storeGet st rr ++ [node])).length := by
          simp only [storeSet, List.length_set]
          omega
        rw [walk_edits_frame node rr recur hlen hframe (adj node) [] _ i hlen2]
        exact hkeep

theorem get_all_paths_py_frame {n : Nat} (adj : Fin n → List (SequenceEdit n)) :
    ∀ (fuel : Nat) (node : Fin n) (vref : Option Nat) (st : Store n) (i : Nat),
      i < st.length →
      (∀ rr, vref = some rr → i ≠ rr ∨ storeGet st rr = []) →
      storeGet (get_all_paths_py adj fuel node vref st).2 i = storeGet st i := by
  intro fuel
  induction fuel with
  | zero =>
    intro node vref st i hi hcond
    rw [get_all_paths_py]
  | succ fuel ih =>
    intro node vref st i hi hcond
    rw [get_all_paths_py_succ]
    exact get_all_paths_py_step_frame adj _
      (fun x o s => get_all_paths_py_length adj fuel x o s)
      (fun x rr s j hj hne => ih x (some rr) s j hj
        (fun rr2 heq => Or.inl (by injection heq with h; rw [← h]; exact hne)))
      node vref st i hi hcond

/-- Claim C10: the in-place effects of `get_all_paths_from_sequence` on the
caller's `visited` list object.  (a) A non-empty list passed by the caller
is mutated in place: after the call its cell holds exactly the old contents
with the start node appended once — the deeper recursion only ever touches
the fresh `copy.copy` cells it allocates.  (b) A passed *empty* list is
falsy, so it is discarded for a fresh list and the caller's cell is left
untouched.  (c) Passing `None` (the default) leaves every pre-existing
cell untouched. -/
theorem claim_c10_visited_aliasing {n : Nat} (adj : Fin n → List (SequenceEdit n))
    (fuel : Nat) (node : Fin n) (st : Store n) (r : Nat) (hr : r < st.length) :
    (storeGet st r ≠ [] →
      storeGet (get_all_paths_py adj (fuel + 1) node (some r) st).2 r =
        storeGet st r ++ [node]) ∧
    (storeGet st r = [] →
      storeGet (get_all_paths_py adj (fuel + 1) node (some r) st).2 r = storeGet st r) ∧
    (∀ i, i < st.length →
      storeGet (get_all_paths_py adj (fuel + 1) node none st).2 i = storeGet st i) := by
  have hlen : ∀ (x : Fin n) (o : Option Nat) (s : Store n),
      s.length ≤ (get_all_paths_py adj fuel x o s).2.length :=
    fun x o s => get_all_paths_py_length adj fuel x o s
  have hframe : ∀ (x : Fin n) (rr : Nat) (s : Store n) (i : Nat), i < s.length → i ≠ rr →
      storeGet (get_all_paths_py adj fuel x (some rr) s).2 i = storeGet s i :=
    fun x rr s i hi hne => get_all_paths_py_frame adj fuel x (some rr) s i hi
      (fun rr2 heq => Or.inl (by injection heq with h; rw [← h]; exact hne))
  refine ⟨?_, ?_, ?_⟩
  · intro hne
    rw [get_all_paths_py_succ]
    unfold get_all_paths_py_step
    simp only []
    rw [if_neg hne]
    simp only []
    by_cases hadj : adj node = []
    · rw [if_pos hadj]
      exact storeGet_set_self st r _ hr
    · rw [if_neg hadj]
      have hr2 : r < (storeSet st r (storeGet st r ++ [node])).length := by
        simp only [storeSet, List.length_set]
        omega
      rw [walk_edits_frame node r _ hlen hframe (adj node) [] _ r hr2]
      exact storeGet_set_self st r _ hr
  · intro hempty
    rw [get_all_paths_py_succ]
    unfold get_all_paths_py_step
    simp only []
    rw [if_pos hempty]
    simp only []
    have hkeep : storeGet (storeSet (st ++ [[]]) st.length
        (storeGet (st ++ [[]]) st.length ++ [node])) r = storeGet st r := by
      rw [storeGet_set_ne _ _ _ _ (by omega), storeGet_append_lt st _ r hr]
    by_cases hadj : adj node = []
    · rw [if_pos hadj]
      exact hkeep
    · rw [if_neg hadj]
      have hr2 : r < (storeSet (st ++ [[]]) st.length
          (storeGet (st ++ [[]]) st.length ++ [node])).length := by
        simp only [storeSet, List.length_set, List.length_append, List.length_cons,
          List.length_nil]
        omega
      rw [walk_edits_frame node st.length _ hlen hframe (adj node) [] _ r hr2]
      exact hkeep
  · intro i hi
    exact get_all_paths_py_frame adj (fuel + 1) node none st i hi (fun rr heq => by cases heq)

/-- Witness for claim C10 on a two-node graph with no edits: the caller's
non-empty list `[1]` in cell `0` ends as `[1, 0]`, while a caller-passed
empty list is left empty. -/
theorem claim_c10_visited_aliasing_witness :
    storeGet (get_all_paths_py (fun _ : Fin 2 => []) (0 + 1) 0 (some 0) [[1]]).2 0 =
      storeGet ([[1]] : Store 2) 0 ++ [0] ∧
    storeGet (get_all_paths_py (fun _ : Fin 2 => []) (0 + 1) 0 (some 0) [[]]).2 0 =
      storeGet ([[]] : Store 2) 0 :=
  ⟨(claim_c10_visited_aliasing (fun _ : Fin 2 => []) 0 0 [[1]] 0 (by decide)).1 (by decide),
   (claim_c10_visited_aliasing (fun _ : Fin 2 => []) 0 0 [[]] 0 (by decide)).2.1 (by decide)⟩
